import Mathlib

/-!
# qview: half-block terminal image viewer

A shallow embedding of `qview.c` and a verification of its viewport, compositor,
renderer and session-loop properties.

Conventions of the embedding
* `uint32_t` values are natural numbers below `U32 = 2^32`; every `uint32_t`
  operation of the source is written with its reduction modulo `U32`.
* The `int` loop counters of `print_canvas_window` are only ever compared with, and
  combined with, `uint32_t` values, so they are carried as their 32-bit
  two's-complement pattern (again a natural number below `U32`).
* `uint8_t` channels are natural numbers; a store into a channel reduces modulo 256.
* Text written to `stdout` is a list of strings, one entry per `printf` call.
-/

namespace QView

/-! ## Data model -/

/-- Number of values of a `uint32_t`. -/
def U32 : Nat := 4294967296

/-- The `colour` struct: four `uint8_t` channels. -/
structure colour where
  r : Nat
  g : Nat
  b : Nat
  a : Nat
deriving DecidableEq, Repr

/-- The `canvas` struct: `uint32_t w, h` and the pixel buffer `colour *pixels`.
The buffer is the list of pixels it holds; a read at an index outside the list is a fault. -/
structure canvas where
  w : Nat
  h : Nat
  pixels : List colour
deriving Repr

/-- The `window` struct: `uint32_t x, y, w, h`. -/
structure window where
  x : Nat
  y : Nat
  w : Nat
  h : Nat
deriving DecidableEq, Repr

/-- Every channel of the colour fits its `uint8_t` field. -/
def colour.wf (col : colour) : Prop :=
  col.r ≤ 255 ∧ col.g ≤ 255 ∧ col.b ≤ 255 ∧ col.a ≤ 255

instance (col : colour) : Decidable col.wf := by
  unfold colour.wf
  infer_instance

/-! ## Compositor -/

/-- The local `blend` of `get_alpha_colour`: initialised to `0xDD` gray and replaced by
`0xAA` gray when `((x & 1) + y) & 1` is non-zero (`uint32_t` arithmetic). -/
def blend_of (x y : Nat) : colour :=
  if (((x &&& 1) + y) % U32) &&& 1 ≠ 0 then ⟨0xAA, 0xAA, 0xAA, 0⟩ else ⟨0xDD, 0xDD, 0xDD, 0⟩

/-- One channel assignment of `get_alpha_colour`:
`(((uint32_t)ch * a) + ((uint32_t)k * (255 - a))) / 255`, stored into a `uint8_t`. -/
def blend_channel (ch a k : Nat) : Nat :=
  (((ch * a) % U32 + (k * (255 - a)) % U32) % U32 / 255) % 256

/-- The function `get_alpha_colour`: the three colour channels are overwritten in turn,
the alpha channel is left as it is. -/
def get_alpha_colour (x y : Nat) (col : colour) : colour :=
  let blend := blend_of x y
  let col : colour := ⟨blend_channel col.r col.a blend.r, col.g, col.b, col.a⟩
  let col : colour := ⟨col.r, blend_channel col.g col.a blend.g, col.b, col.a⟩
  let col : colour := ⟨col.r, col.g, blend_channel col.b col.a blend.b, col.a⟩
  col

/-! ## Escape-sequence emission -/

/-- The function `set_colours`: one `printf` of the combined foreground/background
true-colour sequence. -/
def set_colours (fore bak : colour) : List String :=
  ["\x1b[38;2;" ++ toString fore.r ++ ";" ++ toString fore.g ++ ";" ++ toString fore.b
    ++ ";48;2;" ++ toString bak.r ++ ";" ++ toString bak.g ++ ";" ++ toString bak.b ++ "m"]

/-- The function `print_pair`: colours set with the bottom pixel as foreground, then the
lower-half-block glyph. -/
def print_pair (top bot : colour) : List String :=
  set_colours bot top ++ ["▄"]

/-- The function `print_alpha_pair`: the top pixel is blended at row `yt`, the bottom one
at row `yt + 1` (a `uint32_t` sum). -/
def print_alpha_pair (x yt : Nat) (top bot : colour) : List String :=
  print_pair (get_alpha_colour x yt top) (get_alpha_colour x ((yt + 1) % U32) bot)

/-- The function `reset_colour`. -/
def reset_colour : List String := ["\x1b[m"]

/-- The macro `MIN(X, Y)`, which expands to `((X > Y)?Y:X)`. -/
def MIN (X Y : Nat) : Nat := if X > Y then Y else X

/-- Subtraction of two `uint32_t` values. -/
def sub32 (a b : Nat) : Nat := (a % U32 + (U32 - b % U32)) % U32

/-! ## Renderer -/

/-- The index expression `(y*c.w)+x` of `print_canvas_window`, evaluated in `uint32_t`. -/
def pixel_index (c : canvas) (x y : Nat) : Nat :=
  ((y * c.w) % U32 + x) % U32

/-- The inner loop `for (int x = ...; x < bound; ++x)` of `print_canvas_window`, entered
with the counter at `x`. Every pass reads the two pixels of the cell and prints the pair.
The result is `none` when a read falls outside the pixel buffer. The counter cannot
wrap: `x < bound` gives `x + 1 < 2^32`. -/
def col_loop (c : canvas) (y bound : Nat) (x : Nat) : Option (List String) :=
  if x < bound then
    match c.pixels[pixel_index c x y]?, c.pixels[pixel_index c x ((y + 1) % U32)]? with
    | some top, some bot =>
      match col_loop c y bound (x + 1) with
      | some rest => some (print_alpha_pair x y top bot ++ rest)
      | none => none
    | _, _ => none
  else some []
termination_by bound - x

/-- The outer loop `for (int y = ...; y < bound; y += 2)` of `print_canvas_window`,
entered with the counter at `y`; `xstart` is `win.x`, `w` the clamped width. After the
cells of a row come the two cursor moves. The result is `none` when a read falls outside
the pixel buffer, and also when the counter would pass `2^32` (from `-2` to `0` as an
`int`) with the loop still running: the source then keeps looping, and the run is not
followed further. -/
def row_loop (c : canvas) (xstart w bound : Nat) (y : Nat) : Option (List String) :=
  if y < bound then
    match col_loop c y ((xstart + w) % U32) xstart with
    | some cells =>
      if y + 2 < U32 then
        match row_loop c xstart w bound (y + 2) with
        | some rest => some (cells ++ ["\x1b[" ++ toString w ++ "D", "\x1b[B"] ++ rest)
        | none => none
      else none
    | none => none
  else some []
termination_by bound - y

/-- The function `print_canvas_window`. -/
def print_canvas_window (c : canvas) (win : window) : Option (List String) :=
  let w := MIN win.w (sub32 c.w win.x)
  let h := MIN win.h (sub32 (sub32 c.h win.y) 1)
  match row_loop c win.x w ((win.y + h) % U32) win.y with
  | some rows => some (rows ++ reset_colour)
  | none => none

/-- The body of the inner loop of `print_canvas_window` at counters `x`, `y`, for reads
that stay inside the buffer: the two pixels fetched and handed to `print_alpha_pair`. -/
def read_cell (c : canvas) (x y : Nat) : List String :=
  print_alpha_pair x y (c.pixels.getD (pixel_index c x y) ⟨0, 0, 0, 0⟩)
    (c.pixels.getD (pixel_index c x ((y + 1) % U32)) ⟨0, 0, 0, 0⟩)

/-! ## Session loop -/

/-- The terminal-size check at the top of a pass of `while (1)`: when the measured
size differs from the window's, the window takes `ws_col` columns and `ws_row << 1`
rows (and the frame is drawn). -/
def resize (win : window) (ws_col ws_row : Nat) : window :=
  if win.w ≠ ws_col ∨ win.h ≠ ws_row <<< 1 then ⟨win.x, win.y, ws_col, ws_row <<< 1⟩ else win

/-- The `switch (ch)` of the session loop followed by `win.x %= c.w; win.y %= c.h;`.
The key is the byte read from `stdin`; `-=` and `+=` act on `uint32_t` fields. A loaded
canvas has `w, h ≥ 1`; for a zero dimension, where the `%=` of the source is undefined,
the offset is left as it is. -/
def handle_key (c : canvas) (win : window) (ch : Nat) : window :=
  let win : window :=
    match ch with
    | 115 => ⟨win.x, sub32 win.y 1, win.w, win.h⟩        -- 's'
    | 83 => ⟨win.x, sub32 win.y 10, win.w, win.h⟩        -- 'S'
    | 119 => ⟨win.x, (win.y + 1) % U32, win.w, win.h⟩    -- 'w'
    | 87 => ⟨win.x, (win.y + 10) % U32, win.w, win.h⟩    -- 'W'
    | 97 => ⟨sub32 win.x 1, win.y, win.w, win.h⟩         -- 'a'
    | 65 => ⟨sub32 win.x 10, win.y, win.w, win.h⟩        -- 'A'
    | 100 => ⟨(win.x + 1) % U32, win.y, win.w, win.h⟩    -- 'd'
    | 68 => ⟨(win.x + 10) % U32, win.y, win.w, win.h⟩    -- 'D'
    | _ => win
  ⟨win.x % c.w, win.y % c.h, win.w, win.h⟩

/-- What one pass of the session loop observes: the terminal size returned by the
`ioctl` and the byte returned by the `read`. -/
structure tty_event where
  ws_col : Nat
  ws_row : Nat
  key : Nat
deriving Repr

/-- One pass of `while (1)` on the viewport: `none` when the key is `'\004'` or `'q'`
(the `break`), the updated window otherwise. Drawing the frame reads the window and
does not change it. -/
def loop_pass (c : canvas) (win : window) (ev : tty_event) : Option window :=
  let win := resize win ev.ws_col ev.ws_row
  if ev.key = 4 ∨ ev.key = 113 then none else some (handle_key c win ev.key)

/-- The viewport of the session loop after the given passes, stopping at the first key
that ends the loop. -/
def session (c : canvas) : window → List tty_event → window
  | win, [] => win
  | win, ev :: evs =>
    match loop_pass c win ev with
    | none => resize win ev.ws_col ev.ws_row
    | some win1 => session c win1 evs

/-- The session loop of one file run to its `break`: the events left for the next file,
or `none` when the input ends before a key that ends the loop (the `read` then never
delivers one). -/
def session_rest (c : canvas) : window → List tty_event → Option (List tty_event)
  | _, [] => none
  | win, ev :: evs =>
    match loop_pass c win ev with
    | none => some evs
    | some win1 => session_rest c win1 evs

/-! ## Program entry: terminal attributes -/

/-- The fields of `struct termios` that `main` changes: the `ICANON` and `ECHO` bits of
`c_lflag`, and `c_cc[VMIN]`, `c_cc[VTIME]`; `others` stands for all the attributes it
leaves alone. -/
structure termios where
  icanon : Bool
  echo : Bool
  vmin : Nat
  vtime : Nat
  others : Nat
deriving DecidableEq, Repr

/-- The attributes `new` that `main` installs with `tcsetattr(..., TCSAFLUSH, &new)`. -/
def raw_mode (old : termios) : termios :=
  ⟨false, false, 1, 0, old.others⟩

/-- How a run of `main` ends: the attributes of the terminal at the `return`, and the
lines written to `stderr`. -/
structure exit_state where
  tty : termios
  err : List String
deriving DecidableEq, Repr

/-- The loop `for (int i = 1; i < argn; ++i)` of `main` over the remaining file names.
`cur` holds the attributes the terminal has now, `old` the ones saved at the start.
`load` stands for `init_canvas` (`none` when it returns 0). A failed load returns at
once; after the last file `tcsetattr(..., TCSANOW, &old)` runs. The result is `none`
when the input ends inside a session. -/
def file_loop (load : String → Option canvas) (old cur : termios) :
    List String → List tty_event → Option exit_state
  | [], _ => some ⟨old, []⟩
  | file :: files, evs =>
    match load file with
    | none => some ⟨cur, ["Unnable to load or create file!\n"]⟩
    | some c =>
      match session_rest c ⟨0, 0, 0, 0⟩ evs with
      | none => none
      | some evs1 => file_loop load old cur files evs1

/-- The function `main`. `args` is `args[0..argn-1]`, `isatty` the result of
`isatty(STDIN_FILENO)`, `tty` the attributes of the terminal at the start. -/
def main (args : List String) (isatty : Bool) (load : String → Option canvas)
    (evs : List tty_event) (tty : termios) : Option exit_state :=
  if args.length < 2 then some ⟨tty, ["No file name given!\n"]⟩
  else if !isatty then some ⟨tty, ["Not a terminal!\n"]⟩
  else
    let old := tty
    let new := raw_mode tty
    file_loop load old new (args.drop 1) evs

/-! ## Definitions that follow the specification's wording -/

/-- The checkerboard gray the specification selects for a coordinate: `0xAA` when
`((x & 1) + y) & 1` is 1, `0xDD` otherwise (plain natural-number arithmetic). -/
def checker_shade (x y : Nat) : Nat :=
  if ((x &&& 1) + y) &&& 1 = 1 then 0xAA else 0xDD

/-- The key table of the specification for the forward pans: the deltas `(dx, dy)` of
`'w'`, `'W'`, `'d'`, `'D'`, and `(0, 0)` for any other byte. -/
def forward_delta (ch : Nat) : Nat × Nat :=
  match ch with
  | 119 => (0, 1)
  | 87 => (0, 10)
  | 100 => (1, 0)
  | 68 => (10, 0)
  | _ => (0, 0)

/-- The pixel of the canvas at column `x` and row `y`: the buffer is row-major with the
origin at the top left. -/
def pixel_at (c : canvas) (x y : Nat) : colour :=
  c.pixels.getD (y * c.w + x) ⟨0, 0, 0, 0⟩

/-- One cell of the frame as the specification words it: a single escape sequence
`ESC[38;2;R;G;B;48;2;R;G;Bm` whose foreground is the bottom pixel `(x, y + 1)` blended
at row `y + 1` and whose background is the top pixel `(x, y)` blended at row `y`,
followed by the lower-half-block glyph. -/
def cell_spec (c : canvas) (x y : Nat) : List String :=
  let fg := get_alpha_colour x (y + 1) (pixel_at c x (y + 1))
  let bg := get_alpha_colour x y (pixel_at c x y)
  ["\x1b[38;2;" ++ toString fg.r ++ ";" ++ toString fg.g ++ ";" ++ toString fg.b
    ++ ";48;2;" ++ toString bg.r ++ ";" ++ toString bg.g ++ ";" ++ toString bg.b ++ "m",
   "▄"]

/-- The frame as the specification words it: with `effW = min(win.w, w - x)` and
`effH = min(win.h, h - y - 1)`, the cell rows `y' = y, y + 2, ...` below `y + effH`
(there are `(effH + 1) / 2` of them), each made of the cells `x' = x, ..., x + effW - 1`
and followed by `ESC[<effW>D` and `ESC[B`; the frame ends with `ESC[m`. -/
def frame_spec (c : canvas) (win : window) : List String :=
  let effW := min win.w (c.w - win.x)
  let effH := min win.h (c.h - win.y - 1)
  ((List.range ((effH + 1) / 2)).map (fun i =>
      ((List.range effW).map (fun j => cell_spec c (win.x + j) (win.y + 2 * i))).flatten
        ++ ["\x1b[" ++ toString effW ++ "D", "\x1b[B"])).flatten
    ++ ["\x1b[m"]

/-! ## Compositor: proofs -/

theorem blend_of_eq_shade (x y : Nat) :
    blend_of x y = ⟨checker_shade x y, checker_shade x y, checker_shade x y, 0⟩ := by
  unfold blend_of checker_shade U32
  simp only [Nat.and_one_is_mod]
  have h : ((x % 2 + y) % 4294967296) % 2 = (x % 2 + y) % 2 := by omega
  rw [h]
  rcases Nat.mod_two_eq_zero_or_one (x % 2 + y) with h0 | h1
  · simp [h0]
  · simp [h1]

theorem checker_shade_le (x y : Nat) : checker_shade x y ≤ 255 := by
  unfold checker_shade
  split <;> decide

theorem blend_channel_exact (ch a k : Nat) (hc : ch ≤ 255) (ha : a ≤ 255) (hk : k ≤ 255) :
    blend_channel ch a k = (ch * a + k * (255 - a)) / 255
      ∧ (ch * a + k * (255 - a)) / 255 ≤ 255 := by
  have h1 : ch * a ≤ 255 * a := Nat.mul_le_mul_right a hc
  have h2 : k * (255 - a) ≤ 255 * (255 - a) := Nat.mul_le_mul_right _ hk
  unfold blend_channel U32
  generalize ch * a = p at h1 ⊢
  generalize k * (255 - a) = q at h2 ⊢
  omega

theorem blend_channel_alpha_full (ch k : Nat) (hc : ch ≤ 255) (hk : k ≤ 255) :
    blend_channel ch 255 k = ch := by
  rw [(blend_channel_exact ch 255 k hc (le_refl _) hk).1]
  simp

theorem blend_channel_alpha_zero (ch k : Nat) (hk : k ≤ 255) :
    blend_channel ch 0 k = k := by
  have h1 : k * 255 < 4294967296 := by omega
  have h2 : k < 256 := by omega
  unfold blend_channel U32
  simp only [Nat.mul_zero, Nat.zero_mod, Nat.zero_add, Nat.sub_zero]
  rw [Nat.mod_eq_of_lt h1, Nat.mod_eq_of_lt h1, Nat.mul_div_cancel k (by decide),
    Nat.mod_eq_of_lt h2]

theorem get_alpha_colour_fields (x y : Nat) (col : colour) :
    get_alpha_colour x y col =
      ⟨blend_channel col.r col.a (checker_shade x y),
       blend_channel col.g col.a (checker_shade x y),
       blend_channel col.b col.a (checker_shade x y), col.a⟩ := by
  simp [get_alpha_colour, blend_of_eq_shade]

/-- C4: for a pixel with 8-bit channels, each colour channel returned by
`get_alpha_colour` is the truncated quotient `(channel * a + k * (255 - a)) / 255` with
`k` the checkerboard gray of the coordinate; that quotient is at most 255, and the alpha
channel comes back unchanged. -/
theorem get_alpha_colour_blend (x y : Nat) (col : colour) (hcol : col.wf) :
    (get_alpha_colour x y col).r = (col.r * col.a + checker_shade x y * (255 - col.a)) / 255
    ∧ (get_alpha_colour x y col).g = (col.g * col.a + checker_shade x y * (255 - col.a)) / 255
    ∧ (get_alpha_colour x y col).b = (col.b * col.a + checker_shade x y * (255 - col.a)) / 255
    ∧ (col.r * col.a + checker_shade x y * (255 - col.a)) / 255 ≤ 255
    ∧ (col.g * col.a + checker_shade x y * (255 - col.a)) / 255 ≤ 255
    ∧ (col.b * col.a + checker_shade x y * (255 - col.a)) / 255 ≤ 255
    ∧ (get_alpha_colour x y col).a = col.a := by
  obtain ⟨hr, hg, hb, ha⟩ := hcol
  have hk := checker_shade_le x y
  rw [get_alpha_colour_fields]
  exact ⟨(blend_channel_exact _ _ _ hr ha hk).1, (blend_channel_exact _ _ _ hg ha hk).1,
    (blend_channel_exact _ _ _ hb ha hk).1, (blend_channel_exact _ _ _ hr ha hk).2,
    (blend_channel_exact _ _ _ hg ha hk).2, (blend_channel_exact _ _ _ hb ha hk).2, rfl⟩

theorem get_alpha_colour_blend_witness :
    (get_alpha_colour 3 4 ⟨200, 100, 50, 128⟩).r = (200 * 128 + checker_shade 3 4 * (255 - 128)) / 255
    ∧ (get_alpha_colour 3 4 ⟨200, 100, 50, 128⟩).g = (100 * 128 + checker_shade 3 4 * (255 - 128)) / 255
    ∧ (get_alpha_colour 3 4 ⟨200, 100, 50, 128⟩).b = (50 * 128 + checker_shade 3 4 * (255 - 128)) / 255
    ∧ (200 * 128 + checker_shade 3 4 * (255 - 128)) / 255 ≤ 255
    ∧ (100 * 128 + checker_shade 3 4 * (255 - 128)) / 255 ≤ 255
    ∧ (50 * 128 + checker_shade 3 4 * (255 - 128)) / 255 ≤ 255
    ∧ (get_alpha_colour 3 4 ⟨200, 100, 50, 128⟩).a = 128 :=
  get_alpha_colour_blend 3 4 ⟨200, 100, 50, 128⟩ (by decide)

/-- C5: at alpha 255 `get_alpha_colour` returns the 8-bit colour channels of the pixel
unchanged, and at alpha 0 it returns the checkerboard gray of the coordinate in all three
channels, whatever the pixel's colour channels are. -/
theorem get_alpha_colour_extremes (x y r g b : Nat) (hr : r ≤ 255) (hg : g ≤ 255)
    (hb : b ≤ 255) :
    get_alpha_colour x y ⟨r, g, b, 255⟩ = ⟨r, g, b, 255⟩
    ∧ get_alpha_colour x y ⟨r, g, b, 0⟩
        = ⟨checker_shade x y, checker_shade x y, checker_shade x y, 0⟩ := by
  have hk := checker_shade_le x y
  constructor
  · rw [get_alpha_colour_fields]
    simp only [blend_channel_alpha_full _ _ hr hk, blend_channel_alpha_full _ _ hg hk,
      blend_channel_alpha_full _ _ hb hk]
  · rw [get_alpha_colour_fields]
    simp only [blend_channel_alpha_zero _ _ hk]

theorem get_alpha_colour_extremes_witness :
    get_alpha_colour 5 7 ⟨12, 34, 56, 255⟩ = ⟨12, 34, 56, 255⟩
    ∧ get_alpha_colour 5 7 ⟨12, 34, 56, 0⟩
        = ⟨checker_shade 5 7, checker_shade 5 7, checker_shade 5 7, 0⟩ :=
  get_alpha_colour_extremes 5 7 12 34 56 (by decide) (by decide) (by decide)

theorem resize_x (win : window) (col row : Nat) : (resize win col row).x = win.x := by
  unfold resize
  split <;> rfl

theorem resize_y (win : window) (col row : Nat) : (resize win col row).y = win.y := by
  unfold resize
  split <;> rfl

theorem handle_key_x (c : canvas) (win : window) (ch : Nat) (hw : 1 ≤ c.w) :
    (handle_key c win ch).x < c.w := by
  unfold handle_key
  exact Nat.mod_lt _ hw

theorem handle_key_y (c : canvas) (win : window) (ch : Nat) (hh : 1 ≤ c.h) :
    (handle_key c win ch).y < c.h := by
  unfold handle_key
  exact Nat.mod_lt _ hh

theorem session_in_range (c : canvas) (hw : 1 ≤ c.w) (hh : 1 ≤ c.h) (evs : List tty_event) :
    ∀ win : window, win.x < c.w → win.y < c.h →
      (session c win evs).x < c.w ∧ (session c win evs).y < c.h := by
  induction evs with
  | nil => intro win hx hy; exact ⟨hx, hy⟩
  | cons ev evs ih =>
    intro win hx hy
    unfold session loop_pass
    by_cases hq : ev.key = 4 ∨ ev.key = 113
    · simp only [hq, if_true]
      rw [resize_x, resize_y]
      exact ⟨hx, hy⟩
    · simp only [hq, if_false]
      exact ih _ (handle_key_x c _ _ hw) (handle_key_y c _ _ hh)

/-- C2: on a canvas with `w ≥ 1` and `h ≥ 1`, handling any key from any viewport leaves
`x < w` and `y < h`, and the session loop started at the origin keeps the offset inside
`[0, w) × [0, h)` after every finite sequence of passes. -/
theorem offset_in_range (c : canvas) (hw : 1 ≤ c.w) (hh : 1 ≤ c.h) :
    (∀ (win : window) (ch : Nat),
      (handle_key c win ch).x < c.w ∧ (handle_key c win ch).y < c.h)
    ∧ (∀ evs : List tty_event,
      (session c ⟨0, 0, 0, 0⟩ evs).x < c.w ∧ (session c ⟨0, 0, 0, 0⟩ evs).y < c.h) :=
  ⟨fun win ch => ⟨handle_key_x c win ch hw, handle_key_y c win ch hh⟩,
   fun evs => session_in_range c hw hh evs ⟨0, 0, 0, 0⟩ hw hh⟩

theorem offset_in_range_witness :
    (∀ (win : window) (ch : Nat),
      (handle_key ⟨3, 5, []⟩ win ch).x < 3 ∧ (handle_key ⟨3, 5, []⟩ win ch).y < 5)
    ∧ (∀ evs : List tty_event,
      (session ⟨3, 5, []⟩ ⟨0, 0, 0, 0⟩ evs).x < 3 ∧ (session ⟨3, 5, []⟩ ⟨0, 0, 0, 0⟩ evs).y < 5) :=
  offset_in_range ⟨3, 5, []⟩ (by decide) (by decide)

/-- C7: on a canvas with `1 ≤ w, h < 2^31` and an in-range viewport, a key other than
`'s'`, `'S'`, `'a'`, `'A'`, `'q'` and byte 4 does not end the pass and moves the offset
to `((x + dx) mod w, (y + dy) mod h)` with `(dx, dy)` from the key table, leaving the
viewport size as it was. -/
theorem forward_pan (c : canvas) (win : window) (ch : Nat)
    (hw1 : 1 ≤ c.w) (hw2 : c.w < 2 ^ 31) (hh1 : 1 ≤ c.h) (hh2 : c.h < 2 ^ 31)
    (hx : win.x < c.w) (hy : win.y < c.h)
    (hs : ch ≠ 115) (hS : ch ≠ 83) (ha : ch ≠ 97) (hA : ch ≠ 65) (hq : ch ≠ 113)
    (h4 : ch ≠ 4) :
    handle_key c win ch
      = ⟨(win.x + (forward_delta ch).1) % c.w, (win.y + (forward_delta ch).2) % c.h,
          win.w, win.h⟩
    ∧ (∀ ws_col ws_row : Nat, loop_pass c win ⟨ws_col, ws_row, ch⟩
      = some (handle_key c (resize win ws_col ws_row) ch)) := by
  constructor
  · have ex1 : (win.x + 1) % U32 = win.x + 1 := by unfold U32; omega
    have ex10 : (win.x + 10) % U32 = win.x + 10 := by unfold U32; omega
    have ey1 : (win.y + 1) % U32 = win.y + 1 := by unfold U32; omega
    have ey10 : (win.y + 10) % U32 = win.y + 10 := by unfold U32; omega
    unfold handle_key forward_delta
    split <;> simp_all
  · intro ws_col ws_row
    unfold loop_pass
    simp [hq, h4]

theorem forward_pan_witness :
    handle_key ⟨10, 4, []⟩ ⟨9, 0, 80, 48⟩ 100
      = ⟨(9 + (forward_delta 100).1) % 10, (0 + (forward_delta 100).2) % 4, 80, 48⟩
    ∧ (∀ ws_col ws_row : Nat, loop_pass ⟨10, 4, []⟩ ⟨9, 0, 80, 48⟩ ⟨ws_col, ws_row, 100⟩
      = some (handle_key ⟨10, 4, []⟩ (resize ⟨9, 0, 80, 48⟩ ws_col ws_row) 100)) :=
  forward_pan ⟨10, 4, []⟩ ⟨9, 0, 80, 48⟩ 100 (by decide) (by decide) (by decide) (by decide)
    (by decide) (by decide) (by decide) (by decide) (by decide) (by decide) (by decide)
    (by decide)

/-- C1: on a canvas three pixels wide and three high, key `'a'` pressed with the
viewport at `x = 0` leaves `x = 0`, and key `'s'` with `y = 0` leaves `y = 0`: the
`uint32_t` subtraction gives `2^32 - 1`, whose residue modulo 3 is 0 and not the far
edge `3 - 1 = 2`. On any canvas the two keys at the origin give `(2^32 - 1) mod w` and
`(2^32 - 1) mod h`. -/
theorem pan_back_at_origin_width_three :
    (handle_key ⟨3, 3, List.replicate 9 ⟨0, 0, 0, 255⟩⟩ ⟨0, 0, 80, 48⟩ 97).x = 0
    ∧ (handle_key ⟨3, 3, List.replicate 9 ⟨0, 0, 0, 255⟩⟩ ⟨0, 0, 80, 48⟩ 97).x ≠ 3 - 1
    ∧ (handle_key ⟨3, 3, List.replicate 9 ⟨0, 0, 0, 255⟩⟩ ⟨0, 0, 80, 48⟩ 115).y = 0
    ∧ (handle_key ⟨3, 3, List.replicate 9 ⟨0, 0, 0, 255⟩⟩ ⟨0, 0, 80, 48⟩ 115).y ≠ 3 - 1
    ∧ (∀ (c : canvas) (y w h : Nat), (handle_key c ⟨0, y, w, h⟩ 97).x = 4294967295 % c.w)
    ∧ (∀ (c : canvas) (x w h : Nat), (handle_key c ⟨x, 0, w, h⟩ 115).y = 4294967295 % c.h) := by
  have hsub : sub32 0 1 = 4294967295 := by decide
  refine ⟨by decide, by decide, by decide, by decide, ?_, ?_⟩
  · intro c y w h
    simp only [handle_key, hsub]
  · intro c x w h
    simp only [handle_key, hsub]

/-- C9: `main` run on one file whose load fails returns with the terminal still in the
attributes it installed at the start (canonical mode and echo off), not the saved
ones; whatever the attributes at the start and the files that follow, a first file that
fails to load ends `main` with the installed attributes in place. -/
theorem main_load_failure_keeps_raw_mode :
    main ["qview", "missing.png"] true (fun _ => none) [] ⟨true, true, 0, 0, 7⟩
      = some ⟨⟨false, false, 1, 0, 7⟩, ["Unnable to load or create file!\n"]⟩
    ∧ (⟨false, false, 1, 0, 7⟩ : termios) ≠ ⟨true, true, 0, 0, 7⟩
    ∧ (∀ (prog file : String) (files : List String) (evs : List tty_event) (tty : termios),
        main (prog :: file :: files) true (fun _ => none) evs tty
          = some ⟨raw_mode tty, ["Unnable to load or create file!\n"]⟩) := by
  refine ⟨by decide, by decide, fun _ _ _ _ _ => rfl⟩

/-! ## Renderer: proofs -/

theorem flatten_range_succ (f : Nat → List String) (x n : Nat) :
    ((List.range (n + 1)).map (fun k => f (x + k))).flatten
      = f x ++ ((List.range n).map (fun k => f (x + 1 + k))).flatten := by
  rw [List.range_succ_eq_map, List.map_cons, List.flatten_cons, List.map_map]
  simp only [Nat.add_zero]
  congr 2
  apply List.map_congr_left
  intro k _
  simp only [Function.comp, Nat.succ_eq_add_one]
  congr 1
  omega

/-- The inner loop run over `n` in-bounds cells returns their printed pairs in order. -/
theorem col_loop_eq (c : canvas) (y : Nat) (n : Nat) :
    ∀ x : Nat,
      (∀ k, k < n → pixel_index c (x + k) y < c.pixels.length
        ∧ pixel_index c (x + k) ((y + 1) % U32) < c.pixels.length) →
      col_loop c y (x + n) x
        = some (((List.range n).map (fun k => read_cell c (x + k) y)).flatten) := by
  induction n with
  | zero =>
    intro x _
    rw [col_loop]
    simp
  | succ n ih =>
    intro x h
    have h0 := h 0 (by omega)
    rw [Nat.add_zero] at h0
    have hrec := ih (x + 1) (fun k hk => by
      have hk1 := h (k + 1) (by omega)
      rwa [show x + (k + 1) = x + 1 + k by omega] at hk1)
    rw [col_loop, if_pos (by omega), List.getElem?_eq_getElem h0.1,
      List.getElem?_eq_getElem h0.2]
    rw [show x + (n + 1) = x + 1 + n by omega, hrec,
      flatten_range_succ (fun k => read_cell c k y) x n]
    simp only [read_cell, List.getD_eq_getElem?_getD, List.getElem?_eq_getElem h0.1,
      List.getElem?_eq_getElem h0.2, Option.getD_some]

/-- The outer loop run over `n` rows whose cells print without a fault returns the rows
in order, each followed by the two cursor moves. -/
theorem row_loop_eq (c : canvas) (xstart w bound : Nat) (g : Nat → List String)
    (hb : bound + 1 < U32) (n : Nat) :
    ∀ y : Nat,
      (∀ k, k < n → y + 2 * k < bound) → bound ≤ y + 2 * n →
      (∀ k, k < n → col_loop c (y + 2 * k) ((xstart + w) % U32) xstart
        = some (g (y + 2 * k))) →
      row_loop c xstart w bound y
        = some (((List.range n).map (fun k =>
            g (y + 2 * k) ++ ["\x1b[" ++ toString w ++ "D", "\x1b[B"])).flatten) := by
  induction n with
  | zero =>
    intro y _ hge _
    rw [row_loop, if_neg (by omega)]
    simp
  | succ n ih =>
    intro y hlt hge hcol
    have h0 := hlt 0 (by omega)
    have c0 := hcol 0 (by omega)
    rw [Nat.mul_zero, Nat.add_zero] at c0
    have hrec := ih (y + 2)
      (fun k hk => by have := hlt (k + 1) (by omega); omega)
      (by omega)
      (fun k hk => by
        have := hcol (k + 1) (by omega)
        rwa [show y + 2 * (k + 1) = y + 2 + 2 * k by omega] at this)
    rw [row_loop, if_pos (by omega), c0]
    simp only []
    rw [if_pos (by omega), hrec]
    simp only []
    rw [List.range_succ_eq_map, List.map_cons, List.flatten_cons, List.map_map]
    simp only [Nat.mul_zero, Nat.add_zero, List.append_assoc]
    congr 3
    congr 1
    apply List.map_congr_left
    intro k _
    simp only [Function.comp, Nat.succ_eq_add_one]
    rw [show y + 2 * (k + 1) = y + 2 + 2 * k by omega]

theorem MIN_eq_min (a b : Nat) : MIN a b = min a b := by
  unfold MIN
  split <;> omega

theorem sub32_eq (a b : Nat) (hba : b ≤ a) (ha : a < U32) : sub32 a b = a - b := by
  unfold sub32
  unfold U32 at *
  omega

/-- On a canvas whose buffer holds `w * h` pixels, the 32-bit index computed for a
position inside the canvas lies inside the buffer. -/
theorem pixel_index_lt (c : canvas) (x y : Nat) (hx : x < c.w) (hy : y < c.h) :
    pixel_index c x y < c.w * c.h := by
  have h1 : (y + 1) * c.w ≤ c.h * c.w := Nat.mul_le_mul_right _ hy
  have h2 : y * c.w + x < c.w * c.h := by
    rw [Nat.add_mul, Nat.one_mul, Nat.mul_comm c.h c.w] at h1
    omega
  unfold pixel_index
  by_cases hbig : c.w * c.h < U32
  · have h3 : y * c.w % U32 = y * c.w := Nat.mod_eq_of_lt (by omega)
    rw [h3, Nat.mod_eq_of_lt (by omega)]
    exact h2
  · have h4 : (y * c.w % U32 + x) % U32 < U32 := Nat.mod_lt _ (by decide)
    omega

/-- When the canvas has at most `2^32` pixels the 32-bit index is the row-major index. -/
theorem pixel_index_exact (c : canvas) (x y : Nat) (hx : x < c.w) (hy : y < c.h)
    (hsz : c.w * c.h ≤ U32) : pixel_index c x y = y * c.w + x := by
  have h1 : (y + 1) * c.w ≤ c.h * c.w := Nat.mul_le_mul_right _ hy
  rw [Nat.add_mul, Nat.one_mul, Nat.mul_comm c.h c.w] at h1
  have h2 : y * c.w + x < U32 := by omega
  have h3 : y * c.w % U32 = y * c.w := Nat.mod_eq_of_lt (by omega)
  unfold pixel_index
  rw [h3, Nat.mod_eq_of_lt h2]

/-- The frame printed for an in-range viewport of a canvas that holds `w * h` pixels:
no fault, and the rows of the outer loop in order. -/
theorem print_canvas_window_eq (c : canvas) (win : window)
    (hw32 : c.w < U32) (hh32 : c.h < U32) (hlen : c.pixels.length = c.w * c.h)
    (hx : win.x < c.w) (hy : win.y < c.h) :
    print_canvas_window c win
      = some (((List.range ((min win.h (c.h - win.y - 1) + 1) / 2)).map (fun k =>
          ((List.range (min win.w (c.w - win.x))).map
              (fun j => read_cell c (win.x + j) (win.y + 2 * k))).flatten
            ++ ["\x1b[" ++ toString (min win.w (c.w - win.x)) ++ "D", "\x1b[B"])).flatten
          ++ reset_colour) := by
  have e1 : sub32 c.w win.x = c.w - win.x := sub32_eq _ _ (by omega) hw32
  have e2 : sub32 c.h win.y = c.h - win.y := sub32_eq _ _ (by omega) hh32
  have e3 : sub32 (c.h - win.y) 1 = c.h - win.y - 1 :=
    sub32_eq _ _ (by omega) (by omega)
  unfold print_canvas_window
  simp only [MIN_eq_min, e1, e2, e3]
  generalize hW : min win.w (c.w - win.x) = effW
  generalize hH : min win.h (c.h - win.y - 1) = effH
  have hWle : win.x + effW ≤ c.w := by omega
  have hHle : win.y + effH + 1 ≤ c.h := by omega
  have eb : (win.y + effH) % U32 = win.y + effH := Nat.mod_eq_of_lt (by omega)
  have ex : (win.x + effW) % U32 = win.x + effW := Nat.mod_eq_of_lt (by omega)
  have hrows := row_loop_eq c win.x effW (win.y + effH)
    (fun y => ((List.range effW).map (fun j => read_cell c (win.x + j) y)).flatten)
    (by omega) ((effH + 1) / 2) win.y (fun k hk => by omega) (by omega)
    (fun k hk => by
      rw [ex]
      apply col_loop_eq
      intro j hj
      have hy1 : (win.y + 2 * k + 1) % U32 = win.y + 2 * k + 1 :=
        Nat.mod_eq_of_lt (by omega)
      rw [hy1, hlen]
      exact ⟨pixel_index_lt c _ _ (by omega) (by omega),
        pixel_index_lt c _ _ (by omega) (by omega)⟩)
  rw [eb, hrows]

/-- C3: on a canvas whose buffer holds exactly `w * h` pixels (`w, h ≥ 1`,
`w * h < 2^31`) and a viewport with `x < w`, `y < h` of any requested size,
`print_canvas_window` runs without a read outside the buffer; the clamped sizes are
`min(win.w, w - x)` and `min(win.h, h - y - 1)`, and for every cell position inside them
the top index is `y' * w + x'`, the bottom index `(y' + 1) * w + x'`, both below
`w * h`. -/
theorem reads_in_bounds (c : canvas) (win : window)
    (hlen : c.pixels.length = c.w * c.h) (hw : 1 ≤ c.w) (hh : 1 ≤ c.h)
    (hsz : c.w * c.h < 2 ^ 31) (hx : win.x < c.w) (hy : win.y < c.h) :
    (print_canvas_window c win).isSome = true
    ∧ MIN win.w (sub32 c.w win.x) = min win.w (c.w - win.x)
    ∧ MIN win.h (sub32 (sub32 c.h win.y) 1) = min win.h (c.h - win.y - 1)
    ∧ (∀ x' y' : Nat, win.x ≤ x' → x' < win.x + min win.w (c.w - win.x) →
        win.y ≤ y' → y' < win.y + min win.h (c.h - win.y - 1) →
        pixel_index c x' y' = y' * c.w + x'
        ∧ y' * c.w + x' < c.w * c.h
        ∧ pixel_index c x' ((y' + 1) % U32) = (y' + 1) * c.w + x'
        ∧ (y' + 1) * c.w + x' < c.w * c.h) := by
  have hw31 : c.w ≤ c.w * c.h := Nat.le_mul_of_pos_right _ hh
  have hh31 : c.h ≤ c.w * c.h := Nat.le_mul_of_pos_left _ hw
  have hp : (2 : Nat) ^ 31 = 2147483648 := by norm_num
  have hw32 : c.w < U32 := by unfold U32; omega
  have hh32 : c.h < U32 := by unfold U32; omega
  have hsz32 : c.w * c.h ≤ U32 := by unfold U32; omega
  refine ⟨?_, ?_, ?_, ?_⟩
  · rw [print_canvas_window_eq c win hw32 hh32 hlen hx hy]
    rfl
  · rw [MIN_eq_min, sub32_eq _ _ (by omega) hw32]
  · rw [MIN_eq_min, sub32_eq _ _ (by omega) hh32, sub32_eq _ _ (by omega) (by omega)]
  · intro x' y' hx1 hx2 hy1 hy2
    have hxw : x' < c.w := by omega
    have hyh : y' + 1 < c.h := by omega
    have hy1m : (y' + 1) % U32 = y' + 1 := Nat.mod_eq_of_lt (by omega)
    have i1 := pixel_index_exact c x' y' hxw (by omega) hsz32
    have i2 := pixel_index_exact c x' (y' + 1) hxw hyh hsz32
    have b1 := pixel_index_lt c x' y' hxw (by omega)
    have b2 := pixel_index_lt c x' (y' + 1) hxw hyh
    rw [hy1m]
    rw [i1] at b1
    rw [i2] at b2
    exact ⟨i1, b1, i2, b2⟩

theorem reads_in_bounds_witness :
    (print_canvas_window ⟨2, 3, List.replicate 6 ⟨10, 20, 30, 255⟩⟩ ⟨1, 0, 80, 48⟩).isSome = true
    ∧ MIN 80 (sub32 2 1) = min 80 (2 - 1)
    ∧ MIN 48 (sub32 (sub32 3 0) 1) = min 48 (3 - 0 - 1)
    ∧ (∀ x' y' : Nat, 1 ≤ x' → x' < 1 + min 80 (2 - 1) →
        0 ≤ y' → y' < 0 + min 48 (3 - 0 - 1) →
        pixel_index ⟨2, 3, List.replicate 6 ⟨10, 20, 30, 255⟩⟩ x' y' = y' * 2 + x'
        ∧ y' * 2 + x' < 2 * 3
        ∧ pixel_index ⟨2, 3, List.replicate 6 ⟨10, 20, 30, 255⟩⟩ x' ((y' + 1) % U32)
            = (y' + 1) * 2 + x'
        ∧ (y' + 1) * 2 + x' < 2 * 3) :=
  reads_in_bounds ⟨2, 3, List.replicate 6 ⟨10, 20, 30, 255⟩⟩ ⟨1, 0, 80, 48⟩
    (by decide) (by decide) (by decide) (by decide) (by decide) (by decide)

/-- The cell rows of `frame_spec`: the `k`-th row counter `y + 2k` lies below `y + effH`
exactly for `k < (effH + 1) / 2`. -/
theorem frame_spec_row_count (y effH k : Nat) :
    k < (effH + 1) / 2 ↔ y + 2 * k < y + effH := by
  omega

theorem read_cell_eq_spec (c : canvas) (x y : Nat) (hx : x < c.w) (hy : y + 1 < c.h)
    (hh32 : c.h < U32) (hsz : c.w * c.h ≤ U32) :
    read_cell c x y = cell_spec c x y := by
  have hy1m : (y + 1) % U32 = y + 1 := Nat.mod_eq_of_lt (by omega)
  unfold read_cell cell_spec pixel_at
  rw [hy1m, pixel_index_exact c x y hx (by omega) hsz,
    pixel_index_exact c x (y + 1) hx hy hsz]
  simp only [print_alpha_pair, print_pair, set_colours, hy1m]
  rfl

/-- Canvases of at most `2^32` pixels: on a canvas whose buffer holds `w * h`
pixels and an in-range viewport, `print_canvas_window` writes exactly the frame of the
specification: the cell rows `y' = y, y + 2, ...` below `y + effH`, in each the cells
`x' = x, ..., x + effW - 1` with the blended bottom pixel as foreground and the blended
top pixel as background, each row followed by `ESC[<effW>D` and `ESC[B`, and `ESC[m`
at the end. -/
theorem frame_matches_spec (c : canvas) (win : window)
    (hw32 : c.w < U32) (hh32 : c.h < U32) (hlen : c.pixels.length = c.w * c.h)
    (hsz : c.w * c.h ≤ U32) (hx : win.x < c.w) (hy : win.y < c.h) :
    print_canvas_window c win = some (frame_spec c win) := by
  rw [print_canvas_window_eq c win hw32 hh32 hlen hx hy]
  have hrows :
      (List.range ((min win.h (c.h - win.y - 1) + 1) / 2)).map (fun k =>
          ((List.range (min win.w (c.w - win.x))).map
              (fun j => read_cell c (win.x + j) (win.y + 2 * k))).flatten
            ++ ["\x1b[" ++ toString (min win.w (c.w - win.x)) ++ "D", "\x1b[B"])
      = (List.range ((min win.h (c.h - win.y - 1) + 1) / 2)).map (fun i =>
          ((List.range (min win.w (c.w - win.x))).map
              (fun j => cell_spec c (win.x + j) (win.y + 2 * i))).flatten
            ++ ["\x1b[" ++ toString (min win.w (c.w - win.x)) ++ "D", "\x1b[B"]) := by
    apply List.map_congr_left
    intro k hk
    rw [List.mem_range] at hk
    have hcells :
        (List.range (min win.w (c.w - win.x))).map
            (fun j => read_cell c (win.x + j) (win.y + 2 * k))
        = (List.range (min win.w (c.w - win.x))).map
            (fun j => cell_spec c (win.x + j) (win.y + 2 * k)) := by
      apply List.map_congr_left
      intro j hj
      rw [List.mem_range] at hj
      exact read_cell_eq_spec c _ _ (by omega) (by omega) hh32 hsz
    rw [hcells]
  rw [hrows]
  rfl

theorem frame_matches_spec_example :
    print_canvas_window ⟨2, 3, List.replicate 6 ⟨10, 20, 30, 255⟩⟩ ⟨1, 0, 80, 48⟩
      = some (frame_spec ⟨2, 3, List.replicate 6 ⟨10, 20, 30, 255⟩⟩ ⟨1, 0, 80, 48⟩) :=
  frame_matches_spec ⟨2, 3, List.replicate 6 ⟨10, 20, 30, 255⟩⟩ ⟨1, 0, 80, 48⟩
    (by decide) (by decide) (by decide) (by decide) (by decide) (by decide)

theorem lookup_origin_red (n : Nat) :
    (⟨255, 0, 0, 255⟩ :: List.replicate n (⟨0, 0, 0, 255⟩ : colour)).getD 0 ⟨0, 0, 0, 0⟩
      = ⟨255, 0, 0, 255⟩ := by
  rfl

theorem lookup_rest_black (n i : Nat) (h0 : 0 < i) (h1 : i < n + 1) :
    (⟨255, 0, 0, 255⟩ :: List.replicate n (⟨0, 0, 0, 255⟩ : colour)).getD i ⟨0, 0, 0, 0⟩
      = ⟨0, 0, 0, 255⟩ := by
  rw [List.getD_eq_getElem?_getD, List.getElem?_cons, if_neg (by omega),
    List.getElem?_replicate, if_pos (by omega)]
  rfl

/-- C8: on a canvas 65536 wide and 65537 high whose buffer holds `w * h` pixels, red at
the origin and black elsewhere, with the in-range viewport `(0, 65535)` of size `1 × 2`,
the bottom index `(65535 + 1) * 65536 + 0` wraps to 0 in `uint32_t`: the cell is printed
with the red origin pixel as foreground, where the frame of the specification has the
bottom pixel `(0, 65536)` of the canvas, which is black. -/
theorem frame_wraps_on_huge_canvas :
    (⟨255, 0, 0, 255⟩ :: List.replicate 4295032831 (⟨0, 0, 0, 255⟩ : colour)).length
        = 65536 * 65537
    ∧ (0 : Nat) < 65536 ∧ (65535 : Nat) < 65537
    ∧ print_canvas_window
        ⟨65536, 65537, ⟨255, 0, 0, 255⟩ :: List.replicate 4295032831 ⟨0, 0, 0, 255⟩⟩
        ⟨0, 65535, 1, 2⟩
      = some ["\x1b[38;2;255;0;0;48;2;0;0;0m", "▄", "\x1b[1D", "\x1b[B", "\x1b[m"]
    ∧ frame_spec
        ⟨65536, 65537, ⟨255, 0, 0, 255⟩ :: List.replicate 4295032831 ⟨0, 0, 0, 255⟩⟩
        ⟨0, 65535, 1, 2⟩
      = ["\x1b[38;2;0;0;0;48;2;0;0;0m", "▄", "\x1b[1D", "\x1b[B", "\x1b[m"]
    ∧ print_canvas_window
        ⟨65536, 65537, ⟨255, 0, 0, 255⟩ :: List.replicate 4295032831 ⟨0, 0, 0, 255⟩⟩
        ⟨0, 65535, 1, 2⟩
      ≠ some (frame_spec
        ⟨65536, 65537, ⟨255, 0, 0, 255⟩ :: List.replicate 4295032831 ⟨0, 0, 0, 255⟩⟩
        ⟨0, 65535, 1, 2⟩) := by
  have hlen : (⟨255, 0, 0, 255⟩ :: List.replicate 4295032831 (⟨0, 0, 0, 255⟩ : colour)).length
        = 65536 * 65537 := by
    rw [List.length_cons, List.length_replicate]
  have hcode : print_canvas_window
        ⟨65536, 65537, ⟨255, 0, 0, 255⟩ :: List.replicate 4295032831 ⟨0, 0, 0, 255⟩⟩
        ⟨0, 65535, 1, 2⟩
      = some ["\x1b[38;2;255;0;0;48;2;0;0;0m", "▄", "\x1b[1D", "\x1b[B", "\x1b[m"] := by
    rw [print_canvas_window_eq _ _ (by decide) (by decide) hlen (by decide) (by decide)]
    show some (((List.range 1).map (fun k =>
          ((List.range 1).map
              (fun j => read_cell
                ⟨65536, 65537, ⟨255, 0, 0, 255⟩ :: List.replicate 4295032831 ⟨0, 0, 0, 255⟩⟩
                (0 + j) (65535 + 2 * k))).flatten
            ++ ["\x1b[" ++ toString 1 ++ "D", "\x1b[B"])).flatten
          ++ reset_colour) = _
    rw [show List.range 1 = [0] from rfl]
    simp only [List.map_cons, List.map_nil, List.flatten_cons, List.flatten_nil,
      List.append_nil, read_cell]
    rw [show pixel_index
        ⟨65536, 65537, ⟨255, 0, 0, 255⟩ :: List.replicate 4295032831 ⟨0, 0, 0, 255⟩⟩
        (0 + 0) (65535 + 2 * 0) = 4294901760 from rfl,
      show pixel_index
        ⟨65536, 65537, ⟨255, 0, 0, 255⟩ :: List.replicate 4295032831 ⟨0, 0, 0, 255⟩⟩
        (0 + 0) ((65535 + 2 * 0 + 1) % U32) = 0 from rfl]
    rw [lookup_origin_red, lookup_rest_black _ _ (by decide) (by decide)]
    decide
  have hspec : frame_spec
        ⟨65536, 65537, ⟨255, 0, 0, 255⟩ :: List.replicate 4295032831 ⟨0, 0, 0, 255⟩⟩
        ⟨0, 65535, 1, 2⟩
      = ["\x1b[38;2;0;0;0;48;2;0;0;0m", "▄", "\x1b[1D", "\x1b[B", "\x1b[m"] := by
    unfold frame_spec
    show ((List.range 1).map (fun i =>
          ((List.range 1).map
              (fun j => cell_spec
                ⟨65536, 65537, ⟨255, 0, 0, 255⟩ :: List.replicate 4295032831 ⟨0, 0, 0, 255⟩⟩
                (0 + j) (65535 + 2 * i))).flatten
            ++ ["\x1b[" ++ toString 1 ++ "D", "\x1b[B"])).flatten
          ++ ["\x1b[m"] = _
    rw [show List.range 1 = [0] from rfl]
    simp only [List.map_cons, List.map_nil, List.flatten_cons, List.flatten_nil,
      List.append_nil, cell_spec, pixel_at]
    rw [show (65535 + 2 * 0 + 1) * 65536 + (0 + 0) = 4294967296 from rfl,
      show (65535 + 2 * 0) * 65536 + (0 + 0) = 4294901760 from rfl]
    rw [lookup_rest_black _ _ (by decide) (by decide),
      lookup_rest_black _ _ (by decide) (by decide)]
    decide
  refine ⟨hlen, by decide, by decide, hcode, hspec, ?_⟩
  rw [hcode, hspec]
  decide

/-- Canvases of at most `2^32` pixels, viewport at least as high as the remaining
height `R = h - y`: the frame has `R / 2` cell rows, the `k`-th one made of the cells of
the specification at row `y + 2k`. -/
theorem rows_under_clamp_small (c : canvas) (win : window)
    (hw32 : c.w < U32) (hh32 : c.h < U32) (hlen : c.pixels.length = c.w * c.h)
    (hsz : c.w * c.h ≤ U32) (hx : win.x < c.w) (hy : win.y < c.h)
    (hreq : c.h - win.y ≤ win.h) :
    print_canvas_window c win
      = some (((List.range ((c.h - win.y) / 2)).map (fun i =>
          ((List.range (min win.w (c.w - win.x))).map
              (fun j => cell_spec c (win.x + j) (win.y + 2 * i))).flatten
            ++ ["\x1b[" ++ toString (min win.w (c.w - win.x)) ++ "D", "\x1b[B"])).flatten
          ++ ["\x1b[m"]) := by
  have hmin : min win.h (c.h - win.y - 1) = c.h - win.y - 1 := by omega
  have hcount : (c.h - win.y - 1 + 1) / 2 = (c.h - win.y) / 2 := by
    rw [Nat.sub_add_cancel (by omega)]
  rw [frame_matches_spec c win hw32 hh32 hlen hsz hx hy]
  unfold frame_spec
  simp only [hmin, hcount]

theorem rows_under_clamp_small_example :
    print_canvas_window ⟨2, 3, List.replicate 6 ⟨10, 20, 30, 255⟩⟩ ⟨1, 0, 80, 48⟩
      = some (((List.range ((3 - 0) / 2)).map (fun i =>
          ((List.range (min 80 (2 - 1))).map
              (fun j => cell_spec ⟨2, 3, List.replicate 6 ⟨10, 20, 30, 255⟩⟩
                (1 + j) (0 + 2 * i))).flatten
            ++ ["\x1b[" ++ toString (min 80 (2 - 1)) ++ "D", "\x1b[B"])).flatten
          ++ ["\x1b[m"]) :=
  rows_under_clamp_small ⟨2, 3, List.replicate 6 ⟨10, 20, 30, 255⟩⟩ ⟨1, 0, 80, 48⟩
    (by decide) (by decide) (by decide) (by decide) (by decide) (by decide) (by decide)

theorem lookup_upper_black (m n i : Nat) (hi : i < m) :
    (List.replicate m (⟨0, 0, 0, 255⟩ : colour)
        ++ List.replicate n (⟨255, 255, 255, 255⟩ : colour)).getD i ⟨0, 0, 0, 0⟩
      = ⟨0, 0, 0, 255⟩ := by
  rw [List.getD_eq_getElem?_getD,
    List.getElem?_append_left (by rw [List.length_replicate]; exact hi),
    List.getElem?_replicate, if_pos hi]
  rfl

theorem lookup_bottom_white (m n i : Nat) (h1 : m ≤ i) (h2 : i - m < n) :
    (List.replicate m (⟨0, 0, 0, 255⟩ : colour)
        ++ List.replicate n (⟨255, 255, 255, 255⟩ : colour)).getD i ⟨0, 0, 0, 0⟩
      = ⟨255, 255, 255, 255⟩ := by
  rw [List.getD_eq_getElem?_getD,
    List.getElem?_append_right (by rw [List.length_replicate]; exact h1),
    List.length_replicate, List.getElem?_replicate, if_pos h2]
  rfl

/-- C10: on a canvas 65536 wide and 65537 high whose buffer holds `w * h` pixels, white
in the bottom row and black above it, with the viewport at `(0, 65535)` of width 1 and
requested height 2, the remaining height is `R = 2`, which is even, and one cell row is
printed; its lower half is read at the wrapped index 0 and comes out black, so the white
bottom row of the canvas is not drawn, where the row coverage of the specification has
the bottom pixel `(0, 65536)` as its foreground. -/
theorem bottom_row_missed_on_huge_canvas :
    (List.replicate 4294967296 (⟨0, 0, 0, 255⟩ : colour)
        ++ List.replicate 65536 (⟨255, 255, 255, 255⟩ : colour)).length = 65536 * 65537
    ∧ (0 : Nat) < 65536 ∧ (65535 : Nat) < 65537
    ∧ 65537 - 65535 ≤ 2 ∧ (65537 - 65535) % 2 = 0
    ∧ print_canvas_window
        ⟨65536, 65537, List.replicate 4294967296 (⟨0, 0, 0, 255⟩ : colour)
          ++ List.replicate 65536 (⟨255, 255, 255, 255⟩ : colour)⟩
        ⟨0, 65535, 1, 2⟩
      = some ["\x1b[38;2;0;0;0;48;2;0;0;0m", "▄", "\x1b[1D", "\x1b[B", "\x1b[m"]
    ∧ pixel_index
        ⟨65536, 65537, List.replicate 4294967296 (⟨0, 0, 0, 255⟩ : colour)
          ++ List.replicate 65536 (⟨255, 255, 255, 255⟩ : colour)⟩
        0 ((65535 + 1) % U32) = 0
    ∧ pixel_at
        ⟨65536, 65537, List.replicate 4294967296 (⟨0, 0, 0, 255⟩ : colour)
          ++ List.replicate 65536 (⟨255, 255, 255, 255⟩ : colour)⟩
        0 65536 = ⟨255, 255, 255, 255⟩
    ∧ cell_spec
        ⟨65536, 65537, List.replicate 4294967296 (⟨0, 0, 0, 255⟩ : colour)
          ++ List.replicate 65536 (⟨255, 255, 255, 255⟩ : colour)⟩
        0 65535
      = ["\x1b[38;2;255;255;255;48;2;0;0;0m", "▄"] := by
  have hlen : (List.replicate 4294967296 (⟨0, 0, 0, 255⟩ : colour)
        ++ List.replicate 65536 (⟨255, 255, 255, 255⟩ : colour)).length = 65536 * 65537 := by
    rw [List.length_append, List.length_replicate, List.length_replicate]
  have hwhite : pixel_at
        ⟨65536, 65537, List.replicate 4294967296 (⟨0, 0, 0, 255⟩ : colour)
          ++ List.replicate 65536 (⟨255, 255, 255, 255⟩ : colour)⟩
        0 65536 = ⟨255, 255, 255, 255⟩ := by
    show (List.replicate 4294967296 (⟨0, 0, 0, 255⟩ : colour)
        ++ List.replicate 65536 (⟨255, 255, 255, 255⟩ : colour)).getD 4294967296 ⟨0, 0, 0, 0⟩
      = _
    exact lookup_bottom_white 4294967296 65536 4294967296 (by decide) (by decide)
  have hblack : pixel_at
        ⟨65536, 65537, List.replicate 4294967296 (⟨0, 0, 0, 255⟩ : colour)
          ++ List.replicate 65536 (⟨255, 255, 255, 255⟩ : colour)⟩
        0 65535 = ⟨0, 0, 0, 255⟩ := by
    show (List.replicate 4294967296 (⟨0, 0, 0, 255⟩ : colour)
        ++ List.replicate 65536 (⟨255, 255, 255, 255⟩ : colour)).getD 4294901760 ⟨0, 0, 0, 0⟩
      = _
    exact lookup_upper_black 4294967296 65536 4294901760 (by decide)
  refine ⟨hlen, by decide, by decide, by decide, by decide, ?_, rfl, hwhite, ?_⟩
  · rw [print_canvas_window_eq _ _ (by decide) (by decide) hlen (by decide) (by decide)]
    show some (((List.range 1).map (fun k =>
          ((List.range 1).map
              (fun j => read_cell
                ⟨65536, 65537, List.replicate 4294967296 (⟨0, 0, 0, 255⟩ : colour)
                  ++ List.replicate 65536 (⟨255, 255, 255, 255⟩ : colour)⟩
                (0 + j) (65535 + 2 * k))).flatten
            ++ ["\x1b[" ++ toString 1 ++ "D", "\x1b[B"])).flatten
          ++ reset_colour) = _
    rw [show List.range 1 = [0] from rfl]
    simp only [List.map_cons, List.map_nil, List.flatten_cons, List.flatten_nil,
      List.append_nil, read_cell]
    rw [show pixel_index
        ⟨65536, 65537, List.replicate 4294967296 (⟨0, 0, 0, 255⟩ : colour)
          ++ List.replicate 65536 (⟨255, 255, 255, 255⟩ : colour)⟩
        (0 + 0) (65535 + 2 * 0) = 4294901760 from rfl,
      show pixel_index
        ⟨65536, 65537, List.replicate 4294967296 (⟨0, 0, 0, 255⟩ : colour)
          ++ List.replicate 65536 (⟨255, 255, 255, 255⟩ : colour)⟩
        (0 + 0) ((65535 + 2 * 0 + 1) % U32) = 0 from rfl]
    rw [lookup_upper_black 4294967296 65536 4294901760 (by decide),
      lookup_upper_black 4294967296 65536 0 (by decide)]
    decide
  · unfold cell_spec
    simp only []
    rw [show (65535 : Nat) + 1 = 65536 from rfl, hwhite, hblack]
    decide

end QView
